import Mathlib

/-!
Verification development for the cubescraper product-normalisation pipeline
(`add_cubes_to_database.py`).  The Python source is shallowly embedded:
dictionaries with optional fields become structures with `Option` fields,
Python string operations become explicit `List Char` computations, and the
numeric size (a Python float holding an exact one-decimal value such
as 56.0 or 56.5) is modelled exactly as a natural number of tenths of a
millimetre (56.0 mm ↦ 560), keeping every definition kernel-evaluable.
-/

/-- Occurrence test for a character list inside another, modelling the
Python substring operator `sub in s`. -/
def subOccurs (sub : List Char) : List Char → Bool
  | [] => sub.isEmpty
  | c :: rest => sub.isPrefixOf (c :: rest) || subOccurs sub rest

/-- Left-to-right, non-overlapping replacement of a non-empty pattern
`p :: ps` by `repl`, modelling the scan performed by Python
`str.replace`.  The fuel argument (instantiated with the text length,
which bounds the number of scan steps) keeps the recursion structural. -/
def replaceFuel (p : Char) (ps repl : List Char) : Nat → List Char → List Char
  | _, [] => []
  | 0, l => l
  | fuel + 1, c :: rest =>
    if (p :: ps).isPrefixOf (c :: rest) then
      repl ++ replaceFuel p ps repl fuel (rest.drop ps.length)
    else
      c :: replaceFuel p ps repl fuel rest

/-- Python `s.replace(pat, repl)`: every occurrence is replaced; an empty
pattern inserts `repl` at every character boundary. -/
def pyReplace (s pat repl : String) : String :=
  match pat.data with
  | [] => String.mk (repl.data ++ (s.data.map (fun c => c :: repl.data)).flatten)
  | p :: ps => String.mk (replaceFuel p ps repl.data s.data.length s.data)

/-- Replacement of only the first occurrence of a non-empty pattern. -/
def replaceFirstCore (p : Char) (ps repl : List Char) : List Char → List Char
  | [] => []
  | c :: rest =>
    if (p :: ps).isPrefixOf (c :: rest) then
      repl ++ rest.drop ps.length
    else
      c :: replaceFirstCore p ps repl rest

/-- Replace only the first occurrence of `pat` in `s` (used to state the
spec's "removed exactly once" reading; an empty pattern leaves `s`
unchanged). -/
def pyReplaceFirst (s pat repl : String) : String :=
  match pat.data with
  | [] => s
  | p :: ps => String.mk (replaceFirstCore p ps repl.data s.data)

/-- Prefix of a character list up to (excluding) the first occurrence of
`pat`; models `s.split(pat, 1)[0]` for a non-empty `pat`. -/
def takeBeforeSub (pat : List Char) : List Char → List Char
  | [] => []
  | c :: rest =>
    if pat.isPrefixOf (c :: rest) then []
    else c :: takeBeforeSub pat rest

/-- After an opening parenthesis, find the closing one reachable without
crossing a newline, returning the remainder after it; models the
non-greedy regular expression fragment matching up to a close paren. -/
def findCloseParen : List Char → Option (List Char)
  | [] => none
  | c :: rest =>
    if c = ')' then some rest
    else if c = '\n' then none
    else findCloseParen rest

/-- Remove every parenthesised substring, scanning left to right; models
the substitution of the pattern matching a paren group (whose inner
wildcard cannot cross a newline) by the empty string.  Skipping a whole
group consumes at least one character, so the text length is enough
fuel. -/
def stripParensFuel : Nat → List Char → List Char
  | _, [] => []
  | 0, l => l
  | fuel + 1, c :: rest =>
    if c = '(' then
      match findCloseParen rest with
      | some rest' => stripParensFuel fuel rest'
      | none => c :: stripParensFuel fuel rest
    else c :: stripParensFuel fuel rest

/-- Entry point for parenthesis removal. -/
def stripParens (l : List Char) : List Char :=
  stripParensFuel l.length l

/-- Python `str.lower` (ASCII case mapping, as `Char.toLower`). -/
def pyLower (s : String) : String :=
  String.mk (s.data.map Char.toLower)

/-- Python `str.strip()`: remove leading and trailing whitespace. -/
def pyStrip (s : String) : String :=
  String.mk (((s.data.dropWhile Char.isWhitespace).reverse.dropWhile
    Char.isWhitespace).reverse)

/-- Accumulator-based splitting of a character list into maximal
whitespace-free words (`cur` holds the current word reversed). -/
def wordsAux (cur : List Char) : List Char → List (List Char)
  | [] => if cur.isEmpty then [] else [cur.reverse]
  | c :: rest =>
    if c.isWhitespace then
      if cur.isEmpty then wordsAux [] rest
      else cur.reverse :: wordsAux [] rest
    else wordsAux (c :: cur) rest

/-- Python `s.split()`: split on whitespace runs, dropping empty pieces. -/
def pyWords (s : String) : List String :=
  (wordsAux [] s.data).map String.mk

/-- Python `" ".join(parts)`. -/
def joinSpaces : List String → String
  | [] => ""
  | [s] => s
  | s :: rest => s ++ " " ++ joinSpaces rest

/-- Models the Python `html.unescape` collaborator on the common strict
named entities; the pipeline only pipes description text through it.
The fuel (the text length) keeps the recursion structural. -/
def unescapeFuel : Nat → List Char → List Char
  | _, [] => []
  | 0, l => l
  | fuel + 1, c :: rest =>
    if c = '&' then
      if ['a', 'm', 'p', ';'].isPrefixOf rest then
        '&' :: unescapeFuel fuel (rest.drop 4)
      else if ['l', 't', ';'].isPrefixOf rest then
        '<' :: unescapeFuel fuel (rest.drop 3)
      else if ['g', 't', ';'].isPrefixOf rest then
        '>' :: unescapeFuel fuel (rest.drop 3)
      else if ['q', 'u', 'o', 't', ';'].isPrefixOf rest then
        '"' :: unescapeFuel fuel (rest.drop 5)
      else c :: unescapeFuel fuel rest
    else c :: unescapeFuel fuel rest

/-- String-level wrapper for unescaping. -/
def unescapeHtml (s : String) : String :=
  String.mk (unescapeFuel s.data.length s.data)

/-- Collapse runs of consecutive hyphens to a single hyphen. -/
def squeezeDash : List Char → List Char
  | [] => []
  | [c] => [c]
  | c1 :: c2 :: rest =>
    if c1 = '-' && c2 = '-' then squeezeDash (c2 :: rest)
    else c1 :: squeezeDash (c2 :: rest)

/-- Models the external python-slugify dependency: lower-case, turn every
non-alphanumeric character into a hyphen, collapse hyphen runs and trim
leading/trailing hyphens.  No claim depends on its internals; it is only
required to be a deterministic function of its input text. -/
def slugify (text : String) : String :=
  let l := (text.data.map Char.toLower).map (fun c => if c.isAlphanum then c else '-')
  String.mk ((((squeezeDash l).dropWhile (fun c => c = '-')).reverse.dropWhile
    (fun c => c = '-')).reverse)

/-- One image entry of a listing (`{"src": ...}`); the field may be
missing. -/
structure Image where
  src : Option String
  deriving DecidableEq, Repr

/-- One purchasable variant of a listing; every field may be missing. -/
structure Variant where
  title : Option String
  grams : Option Int
  available : Option Bool
  featured_image : Option Image
  deriving DecidableEq, Repr

/-- A raw storefront listing.  Each expected field may be absent (`none`),
matching the Python dictionaries accessed through `dict.get` with a
default. -/
structure Listing where
  title : Option String := none
  vendor : Option String := none
  product_type : Option String := none
  tags : Option (List String) := none
  body_html : Option String := none
  images : Option (List Image) := none
  variants : Option (List Variant) := none
  published_at : Option String := none
  deriving DecidableEq, Repr

/-- One canonical output row (the dictionary built by
`normalize_product`).  `related_to` is present only on Trim rows, hence
an `Option`; the base row's `image_url` is always a string but a variant
image's missing `src` can set it to `none`, hence an `Option` as well. -/
structure Row where
  series : String
  model : String
  slug : String
  brand : String
  type : String
  magnetic : Bool
  maglev : Bool
  smart : Bool
  wca_legal : Bool
  image_url : Option String
  discontinued : Bool
  surface_finish : Option String
  stickered : Bool
  release_date : String
  size : Nat
  weight : Int
  rating : Int
  notes : String
  status : String
  submitted_by : String
  version_type : String
  version_name : String
  related_to : Option String
  deriving DecidableEq, Repr

/-- `ILLEGAL_CUBE_TYPES` from the source (a Python set, modelled as a
list; only membership is used). -/
def ILLEGAL_CUBE_TYPES : List String :=
  ["Smart Cube", "Bluetooth Cube", "Motorized Cube", "Robot Cube",
   "Transparent Cube", "Clear Cube", "Ice Cube", "Mirror Cube",
   "Ghost Cube", "Axis Cube", "Fisher Cube", "Barrel Cube",
   "Cuboid", "2×2×3", "3×3×2", "3×3×4", "3×3×5",
   "Bandaged Cube", "Mixup Cube",
   "Mastermorphix", "Pyramorphix", "Master Pyraminx",
   "8×8 Cube", "9×9 Cube", "10×10 Cube", "11×11 Cube", "12×12 Cube",
   "13×13 Cube", "15×15 Cube", "17×17 Cube", "18×18 Cube",
   "Kilominx", "Gigaminx", "Teraminx", "Petaminx",
   "Square-2", "Cubedron",
   "Ivy Cube", "Gear Cube", "Helicopter Cube", "Redi Cube",
   "Sudokube", "Floppy Cube", "Infinity Cube", "Siamese Cube"]

/-- `ILLEGAL_TAGS` from the source. -/
def ILLEGAL_TAGS : List String :=
  ["smart", "bluetooth", "wifi", "wi-fi", "wireless", "app",
   "app-enabled", "connected", "cloud", "iot",
   "sensor", "sensors", "gyroscope", "gyro", "accelerometer", "imu",
   "magnetometer", "cpu", "chip", "pcb",
   "display", "screen", "lcd", "oled", "led", "light", "lights",
   "rgb", "neon", "matrix",
   "battery", "rechargeable", "usb", "type-c", "charging", "lithium",
   "li-ion", "charger", "power",
   "motor", "motorized", "auto", "auto-turn", "autosolve",
   "self-turning", "self-solving", "robotic", "robot", "servo",
   "camera", "microphone", "speaker", "voice", "sound", "buzzer",
   "transparent", "clear", "see-through", "crystal", "acrylic", "glass",
   "timer", "hud", "projector", "hologram"]

/-- `SKIP_PRODUCT_TYPES` from the source.  The source contains the
adjacent string literals `"Lubricant" "set"`, which Python concatenates
to `"Lubricantset"`, and the entry `"pill​ow"` contains a zero-width
space (U+200B) between the two l's and the o. -/
def SKIP_PRODUCT_TYPES : List String :=
  ["accessories", "accessories bundle", "apparel - clearance",
   "after sale", "beanie", "blanket", "book", "bundle", "burr puzzle",
   "christmas", "coaching service", "competitions", "cube cover",
   "display case", "display time", "diecast model", "diy", "diy kits",
   "educational toy", "flashcards", "fidget", "fidget cube", "hat",
   "hoodie", "hardware", "hobby tools", "jacket", "jigsaw puzzle",
   "lanyard", "learning", "lube", "live events", "lucky dip", "mat",
   "model kit", "mug", "nanoblock", "office", "other", "pill​ow",
   "plastic blade", "plushie", "remote control car", "refurbished",
   "syringe", "sticker sets", "storage bag", "storage box", "stand",
   "shirt", "t-shirt", "timer", "timer accessories", "timer skin",
   "tools & accessories", "training courses", "toy", "water bottle",
   "wooden building block", "wooden learning board toy",
   "wooden puzzle", "halloween", "digital", "download", "test",
   "OPTIONS_HIDDEN_PRODUCT", "globo", "Sliding", "Pillow", "snake",
   "pin", "badge", "mouse", "pad", "Locking", "Klotski", "Ball",
   "Kreativity", "LMS", "Hanayama", "Jibbitz", "Keychain", "Lubricant",
   "Lubricantset", "Game", "mod", "service", "sticker", "Tetra",
   "Lifestyle", "Freebie", "Decals", "Pouch", "Logo", "blindfold",
   "gift"]

/-- `SURFACE_MAP` from the source, in dictionary (insertion) order. -/
def SURFACE_MAP : List (String × String) :=
  [("uv", "UV Coated"), ("uvcoated", "UV Coated"), ("frosted", "Frosted"),
   ("matte", "Matte"), ("gloss", "Glossy"), ("soft-touch", "Soft Touch")]

/-- `DEFAULT_SIZE_MM` from the source, in tenths of a millimetre. -/
def DEFAULT_SIZE_MM : List (String × Nat) :=
  [("2x2", 500), ("3x3", 560), ("4x4", 600), ("5x5", 620), ("6x6", 650),
   ("7x7", 690)]

/-- `NOISE_WORDS` in the source is the literal `{...}`, a set containing
only the Python `Ellipsis` object, so no string is ever a member; it is
modelled as the empty list. -/
def NOISE_WORDS : List String := []

/-- `should_skip`:  true when the lower-cased product type contains any
entry of the skip list (lower-cased, substring match). -/
def should_skip (prod : Listing) : Bool :=
  let product_type := pyLower (prod.product_type.getD "")
  SKIP_PRODUCT_TYPES.any (fun skip => subOccurs (pyLower skip).data product_type.data)

/-- Numeric value of a decimal digit character. -/
def digitVal (c : Char) : Nat :=
  c.toNat - '0'.toNat

/-- After the captured number, the pattern requires optional whitespace
followed by `mm` (the text has already been lower-cased, but the match is
kept case-insensitive like the compiled pattern). -/
def mmTail (l : List Char) : Bool :=
  match l.dropWhile Char.isWhitespace with
  | c1 :: c2 :: _ => (c1 = 'm' || c1 = 'M') && (c2 = 'm' || c2 = 'M')
  | _ => false

/-- Attempt, at the current position, the part of the millimetre pattern
that follows the integral digits: a greedy optional `.` plus digit, then
`mmTail`; returns the captured value (in tenths) given the integral part
`v` in millimetres. -/
def mmAfterDigits (v : Nat) (l : List Char) : Option Nat :=
  match l with
  | '.' :: c :: rest2 =>
    if c.isDigit && mmTail rest2 then some (10 * v + digitVal c)
    else if mmTail l then some (10 * v)
    else none
  | _ => if mmTail l then some (10 * v) else none

/-- Attempt the millimetre pattern `(\d{2}(\.\d)?)\s*mm` at the current
position: exactly two digits, optional single decimal, then `mm`. -/
def mmMatchAt : List Char → Option Nat
  | a :: b :: rest =>
    if a.isDigit && b.isDigit then
      mmAfterDigits (10 * digitVal a + digitVal b) rest
    else none
  | _ => none

/-- Leftmost search of the millimetre pattern, as `re.search`. -/
def mmSearch : List Char → Option Nat
  | [] => none
  | c :: rest =>
    match mmMatchAt (c :: rest) with
    | some v => some v
    | none => mmSearch rest

/-- Word character in the sense of the regular-expression `\b` boundary. -/
def isWordChar (c : Char) : Bool :=
  c.isAlphanum || c = '_'

/-- Attempt `\b(\d)[x×](\d)\b` at the current position, `prev` being the
character immediately before it (if any). -/
def nxnAt (prev : Option Char) : List Char → Option (Char × Char)
  | d1 :: x :: d2 :: rest =>
    if d1.isDigit && (x = 'x' || x = 'X' || x = '×') && d2.isDigit
        && (match prev with
            | none => true
            | some p => !isWordChar p)
        && (match rest with
            | [] => true
            | c :: _ => !isWordChar c) then
      some (d1, d2)
    else none
  | _ => none

/-- Leftmost search for the `NxN` pattern. -/
def nxnSearch (prev : Option Char) : List Char → Option (Char × Char)
  | [] => none
  | c :: rest =>
    match nxnAt prev (c :: rest) with
    | some p => some p
    | none => nxnSearch (some c) rest

/-- The text searched for a millimetre measurement: title, unescaped
description, tags and variant titles joined by spaces, lower-cased. -/
def sizeText (prod : Listing) : String :=
  pyLower (joinSpaces
    ([prod.title.getD "", unescapeHtml (prod.body_html.getD "")]
      ++ prod.tags.getD []
      ++ (prod.variants.getD []).map (fun v => v.title.getD "")))

/-- `detect_size_mm` (in tenths of a millimetre): direct `XX mm` match
anywhere in the assembled text, else `NxN` table lookup on the title
(with 56.0 mm as the lookup default), else 56.0 mm. -/
def detect_size_mm (prod : Listing) : Nat :=
  match mmSearch (sizeText prod).data with
  | some v => v
  | none =>
    match nxnSearch none (prod.title.getD "").data with
    | some (d1, d2) => (DEFAULT_SIZE_MM.lookup (String.mk [d1, 'x', d2])).getD 560
    | none => 560

/-- `SIZE_PATTERN.match`: the word starts with one or more digits, an
`x` (case-insensitive), and one or more digits. -/
def sizeTokenMatch (s : String) : Bool :=
  let ds := s.data.takeWhile Char.isDigit
  let rest := s.data.dropWhile Char.isDigit
  !ds.isEmpty &&
    (match rest with
     | x :: rest2 => (x = 'x' || x = 'X') && !(rest2.takeWhile Char.isDigit).isEmpty
     | [] => false)

/-- `VERSION_PATTERN.match`: the whole word is `v<digits>`, `pro`,
`plus` or `m` (the word is already lower-cased at the call site). -/
def versionTokenMatch (s : String) : Bool :=
  s = "pro" || s = "plus" || s = "m" ||
    (match s.data with
     | 'v' :: rest => !rest.isEmpty && rest.all Char.isDigit
     | _ => false)

/-- `extract_series_name`: strip parenthesised substrings, truncate at
the first " -", then keep leading whitespace-separated words until one
matches the size pattern, the version pattern or a noise word. -/
def extract_series_name (title : String) : String :=
  let clean := String.mk (stripParens title.data)
  let clean2 := String.mk (takeBeforeSub [' ', '-'] clean.data)
  let kept := (pyWords clean2).takeWhile (fun w =>
    let lw := pyLower w
    !(sizeTokenMatch lw || versionTokenMatch lw || NOISE_WORDS.contains lw))
  pyStrip (joinSpaces kept)

/-- `detect_surface_finish`: per tag, lower-case, replace `_` by `-`,
remove spaces, and return the display name of the first map keyword
contained in the normalised tag. -/
def detect_surface_finish (tags : List String) : Option String :=
  tags.findSome? (fun tag =>
    let key := pyReplace (pyReplace (pyLower tag) "_" "-") " " ""
    SURFACE_MAP.findSome? (fun p =>
      if subOccurs p.1.data key.data then some p.2 else none))

/-- `is_stickered`: heuristic over the joined, lower-cased tags and
variant titles. -/
def is_stickered (prod : Listing) : Bool :=
  let text := pyLower (joinSpaces
    (prod.tags.getD [] ++ (prod.variants.getD []).map (fun v => v.title.getD "")))
  if subOccurs "stickerless".data text.data then false
  else if subOccurs "stickered".data text.data
      || subOccurs "black".data text.data
      || subOccurs "primary".data text.data then true
  else false

/-- The Base row built by `normalize_product` from listing-level
attributes (the `base` dictionary literal of the source, lifted to a
top-level definition). -/
def base_row (prod : Listing) : Row :=
  let tags := (prod.tags.getD []).map pyLower
  let title := prod.title.getD ""
  let series := extract_series_name title
  let imgs := prod.images.getD []
  { series := series
    model := pyStrip (pyReplace title series "")
    slug := slugify (series ++ pyReplace title series "")
    brand := prod.vendor.getD ""
    type := prod.product_type.getD ""
    magnetic := tags.contains "magnetic"
    maglev := tags.any (fun t => subOccurs "maglev".data t.data)
    smart := tags.contains "bluetooth"
    wca_legal := !(tags.any (fun t => ILLEGAL_TAGS.contains (pyLower t)))
      && !(ILLEGAL_CUBE_TYPES.contains (prod.product_type.getD ""))
    image_url := some (String.mk (takeBeforeSub ['?']
      (((if imgs.isEmpty then [Image.mk none] else imgs).headD
        (Image.mk none)).src.getD "").data))
    discontinued := !((prod.variants.getD []).any (fun v => v.available.getD true))
    surface_finish := detect_surface_finish tags
    stickered := is_stickered prod
    release_date := String.mk ((prod.published_at.getD "").data.take 10)
    size := detect_size_mm prod
    weight := 0
    rating := 0
    notes := ""
    status := "Pending"
    submitted_by := "CubeIndex"
    version_type := "Base"
    version_name := ""
    related_to := none }

/-- One Trim row: a copy of the Base row with weight, linkage, slug,
version fields and (when a featured image is present) the image URL
replaced, in the assignment order of the source loop body. -/
def mk_trim (base : Row) (v : Variant) : Row :=
  { base with
    weight := v.grams.getD 0
    related_to := some base.slug
    slug := slugify (base.slug ++ " " ++ v.title.getD "")
    version_type := "Trim"
    version_name := v.title.getD ""
    image_url :=
      match v.featured_image with
      | some img => img.src
      | none => base.image_url }

/-- `normalize_product`: the Base row, followed (when the variant list is
non-empty) by one Trim row per variant, in order. -/
def normalize_product (prod : Listing) : List Row :=
  let base := base_row prod
  let variants := prod.variants.getD []
  if variants.isEmpty then [base]
  else base :: variants.map (mk_trim base)

/-- The body of the `deduplicate_rows` loop: insert a row into the
insertion-ordered accumulator unless its slug was already seen. -/
def dedupStep (unique : List Row) (r : Row) : List Row :=
  if (unique.map (fun x => x.slug)).contains r.slug then unique
  else unique ++ [r]

/-- `deduplicate_rows`: fold the rows into an insertion-ordered map
keyed on `slug`, first occurrence winning (the `OrderedDict` loop of the
source). -/
def deduplicate_rows (rows : List Row) : List Row :=
  rows.foldl dedupStep []

/-- The in-memory part of `main`: filter the listings, expand each
accepted one into rows, concatenate, and deduplicate. -/
def pipeline (listings : List Listing) : List Row :=
  deduplicate_rows (((listings.filter (fun prod => !should_skip prod)).map
    normalize_product).flatten)

/-- Specification-side deduplication, transcribed from the spec's words:
keep the first-occurring row for each slug, in order of first
appearance; later rows with a colliding slug are dropped. -/
def firstOccurrenceBySlug : List Row → List Row
  | [] => []
  | r :: rs => r :: firstOccurrenceBySlug (rs.filter (fun x => x.slug != r.slug))
termination_by l => l.length
decreasing_by
  simp only [List.length_cons]
  exact Nat.lt_succ_of_le (List.length_filter_le _ _)

/-- Deduplication relative to a set of already-seen slugs; the shape the
source's fold takes after its accumulator is made explicit. -/
def dedupFrom (seen : List String) : List Row → List Row
  | [] => []
  | r :: rs =>
    if r.slug ∈ seen then dedupFrom seen rs
    else r :: dedupFrom (seen ++ [r.slug]) rs

theorem dedupStep_mem (acc : List Row) (r : Row)
    (h : r.slug ∈ acc.map (fun x => x.slug)) : dedupStep acc r = acc := by
  have hc : (acc.map (fun x => x.slug)).contains r.slug = true := by simpa using h
  unfold dedupStep
  rw [if_pos hc]

theorem dedupStep_not_mem (acc : List Row) (r : Row)
    (h : r.slug ∉ acc.map (fun x => x.slug)) : dedupStep acc r = acc ++ [r] := by
  have hc : (acc.map (fun x => x.slug)).contains r.slug = false := by simpa using h
  unfold dedupStep
  rw [if_neg]
  simpa using h

theorem deduplicate_rows_eq_dedupFrom (rows : List Row) :
    deduplicate_rows rows = dedupFrom [] rows := by
  have key : ∀ (rs : List Row) (acc : List Row),
      rs.foldl dedupStep acc = acc ++ dedupFrom (acc.map (fun x => x.slug)) rs := by
    intro rs
    induction rs with
    | nil => intro acc; simp [dedupFrom]
    | cons r rs ih =>
      intro acc
      rw [List.foldl_cons]
      by_cases h : r.slug ∈ acc.map (fun x => x.slug)
      · rw [dedupStep_mem acc r h, ih, dedupFrom, if_pos h]
      · rw [dedupStep_not_mem acc r h, ih, dedupFrom, if_neg h]
        simp
  simpa [deduplicate_rows, dedupFrom] using key rows []

theorem dedupFrom_eq_firstOccurrence (rows : List Row) :
    ∀ seen : List String,
      dedupFrom seen rows
        = firstOccurrenceBySlug (rows.filter (fun r => !(seen.contains r.slug))) := by
  induction rows with
  | nil => intro seen; simp [dedupFrom, firstOccurrenceBySlug]
  | cons r rs ih =>
    intro seen
    by_cases h : r.slug ∈ seen
    · have hc : seen.contains r.slug = true := by simpa using h
      rw [dedupFrom, if_pos h, ih]
      simp [hc, h]
    · have hc : seen.contains r.slug = false := by simpa using h
      rw [dedupFrom, if_neg h, ih]
      have hfil : (r :: rs).filter (fun x => !(seen.contains x.slug))
          = r :: rs.filter (fun x => !(seen.contains x.slug)) := by
        simp [hc, h]
      rw [hfil, firstOccurrenceBySlug, List.filter_filter]
      have hpt : ∀ x : Row,
          ((x.slug != r.slug) && !(seen.contains x.slug))
            = !((seen ++ [r.slug]).contains x.slug) := by
        intro x
        by_cases h1 : x.slug = r.slug <;> by_cases h2 : x.slug ∈ seen <;>
          simp [h1, h2, bne]
      simp only [hpt]

theorem dedupFrom_slug_nodup (rows : List Row) :
    ∀ seen : List String,
      ((dedupFrom seen rows).map (fun r => r.slug)).Nodup
        ∧ ∀ s ∈ (dedupFrom seen rows).map (fun r => r.slug), s ∉ seen := by
  induction rows with
  | nil => intro seen; simp [dedupFrom]
  | cons r rs ih =>
    intro seen
    by_cases h : r.slug ∈ seen
    · rw [dedupFrom, if_pos h]
      exact ih seen
    · rw [dedupFrom, if_neg h]
      obtain ⟨hnodup, hnotin⟩ := ih (seen ++ [r.slug])
      refine ⟨?_, ?_⟩
      · simp only [List.map_cons, List.nodup_cons]
        refine ⟨?_, hnodup⟩
        intro hmem
        have := hnotin _ hmem
        simp at this
      · intro s hs
        simp only [List.map_cons, List.mem_cons] at hs
        rcases hs with hs | hs
        · simpa [hs] using h
        · have := hnotin _ hs
          intro hsSeen
          exact this (by simp [hsSeen])

theorem dedupFrom_fixed (rows : List Row) :
    ∀ seen : List String,
      ((rows.map (fun r => r.slug)).Nodup) →
      (∀ r ∈ rows, r.slug ∉ seen) →
      dedupFrom seen rows = rows := by
  induction rows with
  | nil => intro seen _ _; simp [dedupFrom]
  | cons r rs ih =>
    intro seen hnodup hdisj
    rw [dedupFrom, if_neg (hdisj r (by simp))]
    congr 1
    apply ih
    · simpa using hnodup.of_cons
    · intro x hx
      intro hmem
      simp only [List.mem_append, List.mem_singleton] at hmem
      rcases hmem with hmem | hmem
      · exact hdisj x (by simp [hx]) hmem
      · simp only [List.map_cons, List.nodup_cons] at hnodup
        exact hnodup.1 (hmem ▸ List.mem_map_of_mem (fun r => r.slug) hx)

theorem deduplicate_rows_idem (rows : List Row) :
    deduplicate_rows (deduplicate_rows rows) = deduplicate_rows rows := by
  rw [deduplicate_rows_eq_dedupFrom (deduplicate_rows rows),
    deduplicate_rows_eq_dedupFrom rows]
  apply dedupFrom_fixed
  · exact (dedupFrom_slug_nodup rows []).1
  · intro r _
    exact List.not_mem_nil _

/-- C1.  `deduplicate_rows` keeps exactly the first-occurring row for
each slug, in order of first appearance (it coincides with the
specification-side recursion `firstOccurrenceBySlug`), and no two rows
of its output share a slug. -/
theorem claim_C1_dedup_first_wins (rows : List Row) :
    deduplicate_rows rows = firstOccurrenceBySlug rows
      ∧ ((deduplicate_rows rows).map (fun r => r.slug)).Nodup := by
  constructor
  · rw [deduplicate_rows_eq_dedupFrom, dedupFrom_eq_firstOccurrence]
    simp
  · rw [deduplicate_rows_eq_dedupFrom]
    exact (dedupFrom_slug_nodup rows []).1

/-- C5.  The pipeline is a pure function of its input listing sequence
(so repeated runs over the same inputs agree definitionally), and
deduplication is idempotent: applied to the pipeline's own output — or
to any already-deduplicated row list — it returns it unchanged. -/
theorem claim_C5_pipeline_idempotent :
    (∀ listings : List Listing,
      deduplicate_rows (pipeline listings) = pipeline listings)
      ∧ ∀ rows : List Row,
        deduplicate_rows (deduplicate_rows rows) = deduplicate_rows rows := by
  constructor
  · intro listings
    unfold pipeline
    exact deduplicate_rows_idem _
  · exact deduplicate_rows_idem

theorem normalize_product_head (prod : Listing) :
    (normalize_product prod).head? = some (base_row prod) := by
  unfold normalize_product
  by_cases h : (prod.variants.getD []).isEmpty <;> simp [h]

/-- A concrete two-variant listing used to witness the Base/Trim claim. -/
def twoVariantListing : Listing :=
  { title := some "GAN 356"
    variants := some
      [⟨some "Black", some 100, some true, none⟩,
       ⟨some "Stickerless", some 95, some false, some ⟨some "http://img/a?b"⟩⟩] }

/-- C2.  A listing with at least one variant expands to the Base row
followed by exactly one Trim row per variant: the head has
`version_type = "Base"` and an empty version name, every following row
has `version_type = "Trim"` and `related_to` equal to the Base slug, and
the Trim rows carry the variant titles in their original order. -/
theorem claim_C2_base_trim (prod : Listing)
    (h : prod.variants.getD [] ≠ []) :
    ∃ base trims, normalize_product prod = base :: trims
      ∧ base.version_type = "Base"
      ∧ base.version_name = ""
      ∧ trims.length = (prod.variants.getD []).length
      ∧ (∀ t ∈ trims, t.version_type = "Trim" ∧ t.related_to = some base.slug)
      ∧ trims.map (fun t => t.version_name)
          = (prod.variants.getD []).map (fun v => v.title.getD "") := by
  refine ⟨base_row prod, (prod.variants.getD []).map (mk_trim (base_row prod)), ?_, ?_, ?_, ?_, ?_, ?_⟩
  · unfold normalize_product
    rw [if_neg (by simpa using h)]
  · rfl
  · rfl
  · simp
  · intro t ht
    obtain ⟨v, _, rfl⟩ := List.mem_map.mp ht
    exact ⟨rfl, rfl⟩
  · simp [mk_trim]

theorem claim_C2_witness :
    ∃ base trims, normalize_product twoVariantListing = base :: trims
      ∧ base.version_type = "Base"
      ∧ base.version_name = ""
      ∧ trims.length = (twoVariantListing.variants.getD []).length
      ∧ (∀ t ∈ trims, t.version_type = "Trim" ∧ t.related_to = some base.slug)
      ∧ trims.map (fun t => t.version_name)
          = (twoVariantListing.variants.getD []).map (fun v => v.title.getD "") :=
  claim_C2_base_trim twoVariantListing (by decide)

theorem charToLower_idem (c : Char) : c.toLower.toLower = c.toLower := by
  unfold Char.toLower
  by_cases h : c.toNat ≥ 65 ∧ c.toNat ≤ 90
  · rw [if_pos h]
    have ht : (Char.ofNat (c.toNat + 32)).toNat = c.toNat + 32 := by
      unfold Char.ofNat
      rw [dif_pos (Or.inl (by omega : c.toNat + 32 < 55296))]
      rfl
    rw [if_neg]
    omega
  · rw [if_neg h, if_neg h]

@[simp]
theorem pyLower_idem (s : String) : pyLower (pyLower s) = pyLower s := by
  simp only [pyLower, List.map_map]
  congr 1
  exact List.map_congr_left (fun c _ => charToLower_idem c)

/-- A listing whose only peculiarity is the declared type "Smart Cube". -/
def smartCubeListing : Listing :=
  { product_type := some "Smart Cube" }

/-- A listing with an otherwise legal type and a "bluetooth" tag. -/
def bluetoothTagListing : Listing :=
  { tags := some ["bluetooth"], product_type := some "Speed Cube" }

/-- C3.  `wca_legal` is false exactly when the declared product type is
a member of the fixed illegal-type set or some tag, compared
case-insensitively, is a member of the fixed illegal-tag set; in
particular a "Smart Cube" type alone, or a "bluetooth" tag alone,
forces `wca_legal = false`. -/
theorem claim_C3_wca_legal :
    (∀ prod : Listing,
      (normalize_product prod).head? = some (base_row prod)
        ∧ ((base_row prod).wca_legal = false ↔
            (prod.product_type.getD "") ∈ ILLEGAL_CUBE_TYPES
              ∨ ∃ t ∈ prod.tags.getD [], pyLower t ∈ ILLEGAL_TAGS))
    ∧ (base_row smartCubeListing).wca_legal = false
    ∧ (base_row bluetoothTagListing).wca_legal = false := by
  refine ⟨fun prod => ⟨normalize_product_head prod, ?_⟩, by decide, by decide⟩
  simp only [base_row]
  constructor
  · intro h
    simp only [Bool.and_eq_false_iff, Bool.not_eq_false', List.any_eq_true,
      List.mem_map, List.elem_eq_mem, decide_eq_true_eq] at h
    rcases h with ⟨t, ⟨u, hu, rfl⟩, hmem⟩ | htype
    · exact Or.inr ⟨u, hu, by simpa [pyLower_idem] using hmem⟩
    · exact Or.inl (by simpa using htype)
  · intro h
    simp only [Bool.and_eq_false_iff, Bool.not_eq_false', List.any_eq_true,
      List.mem_map, List.elem_eq_mem, decide_eq_true_eq]
    rcases h with htype | ⟨t, ht, hmem⟩
    · exact Or.inr (by simpa using htype)
    · exact Or.inl ⟨pyLower t, ⟨t, ht, rfl⟩, by simpa [pyLower_idem] using hmem⟩

/-- A listing with "smart"-flavoured tags and type but no exact
"bluetooth" tag. -/
def smartTagListing : Listing :=
  { tags := some ["smart", "smart cube"], product_type := some "Smart Cube" }

/-- C10.  The Base row's `smart` flag is set exactly when the exact
string "bluetooth" occurs in the lower-cased tag list (`magnetic`
similarly requires the exact tag "magnetic", while `maglev` only needs
"maglev" as a substring of some tag); "smart"-flavoured tags or a
"Smart Cube" type never set it. -/
theorem claim_C10_smart_flag :
    (∀ prod : Listing,
      (normalize_product prod).head? = some (base_row prod)
        ∧ ((base_row prod).smart = true ↔
            "bluetooth" ∈ (prod.tags.getD []).map pyLower)
        ∧ ((base_row prod).magnetic = true ↔
            "magnetic" ∈ (prod.tags.getD []).map pyLower)
        ∧ ((base_row prod).maglev = true ↔
            ∃ t ∈ (prod.tags.getD []).map pyLower,
              subOccurs "maglev".data t.data = true))
    ∧ (base_row smartTagListing).smart = false := by
  refine ⟨fun prod => ⟨normalize_product_head prod, ?_, ?_, ?_⟩, by decide⟩
  · show (((prod.tags.getD []).map pyLower).contains "bluetooth" = true ↔ _)
    simp [List.elem_eq_mem]
  · show (((prod.tags.getD []).map pyLower).contains "magnetic" = true ↔ _)
    simp [List.elem_eq_mem]
  · show (((prod.tags.getD []).map pyLower).any
        (fun t => subOccurs "maglev".data t.data) = true ↔ _)
    simp [List.any_eq_true]

/-- A listing with an explicitly empty variant list. -/
def noVariantListing : Listing :=
  { title := some "QiYi Cube", variants := some [] }

/-- C8 counterexample: the claim says a listing with zero variants is
never marked discontinued, but the code computes
`not any(v.get("available", True) for v in [])`, which is true. -/
theorem claim_C8_counterexample :
    noVariantListing.variants.getD [] = []
      ∧ (base_row noVariantListing).discontinued = true := by decide

/-- C8 amended.  The Base row's `discontinued` flag is true exactly when
every variant reports availability false (a variant with the field
absent counts as available); a listing with zero variants is therefore
vacuously marked discontinued. -/
theorem claim_C8_discontinued :
    (∀ prod : Listing,
      (normalize_product prod).head? = some (base_row prod)
        ∧ (base_row prod).discontinued
            = (prod.variants.getD []).all (fun v => !(v.available.getD true)))
    ∧ (base_row noVariantListing).discontinued = true := by
  refine ⟨fun prod => ⟨normalize_product_head prod, ?_⟩, by decide⟩
  show (!((prod.variants.getD []).any (fun v => v.available.getD true))) = _
  exact List.not_any_eq_all_not _ _

/-- Tag normalisation as the claim words it: lower-case and REMOVE the
separators "_" and " ". -/
def claimNormTag (tag : String) : String :=
  String.mk ((pyLower tag).data.filter (fun c => !(c = '_' || c = ' ')))

/-- Surface-finish detection as the claim describes it, over
`claimNormTag`. -/
def claimSurfaceFinish (tags : List String) : Option String :=
  tags.findSome? (fun tag =>
    SURFACE_MAP.findSome? (fun p =>
      if subOccurs p.1.data (claimNormTag tag).data then some p.2 else none))

/-- C9 counterexample: on the tag "soft_touch" the code maps the
underscore to a hyphen and matches the "soft-touch" keyword, while the
claim's normalisation (removing the underscore) matches nothing. -/
theorem claim_C9_counterexample :
    detect_surface_finish ["soft_touch"] = some "Soft Touch"
      ∧ claimSurfaceFinish ["soft_touch"] = none := by decide

theorem replaceFuel_single_map (p q : Char) :
    ∀ (fuel : Nat) (l : List Char), l.length ≤ fuel →
      replaceFuel p [] [q] fuel l = l.map (fun c => if c = p then q else c) := by
  intro fuel
  induction fuel with
  | zero =>
    intro l hl
    cases l with
    | nil => rfl
    | cons c rest => simp at hl
  | succ fuel ih =>
    intro l hl
    cases l with
    | nil => rfl
    | cons c rest =>
      simp only [replaceFuel, List.isPrefixOf, List.isPrefixOf_nil_left,
        Bool.and_true, List.drop_zero, List.map_cons]
      by_cases h : c = p
      · have hb : (p == c) = true := by simp [h]
        simp [hb, h, ih rest (by simpa using hl)]
      · have hb : (p == c) = false := by simp [Ne.symm h]
        simp [hb, h, ih rest (by simpa using hl)]

theorem replaceFuel_single_filter (p : Char) :
    ∀ (fuel : Nat) (l : List Char), l.length ≤ fuel →
      replaceFuel p [] [] fuel l = l.filter (fun c => !(c = p)) := by
  intro fuel
  induction fuel with
  | zero =>
    intro l hl
    cases l with
    | nil => rfl
    | cons c rest => simp at hl
  | succ fuel ih =>
    intro l hl
    cases l with
    | nil => rfl
    | cons c rest =>
      simp only [replaceFuel, List.isPrefixOf, List.isPrefixOf_nil_left,
        Bool.and_true, List.drop_zero]
      by_cases h : c = p
      · have hb : (p == c) = true := by simp [h]
        simp [hb, h, ih rest (by simpa using hl), List.filter_cons]
      · have hb : (p == c) = false := by simp [Ne.symm h]
        simp [hb, h, ih rest (by simpa using hl), List.filter_cons]

/-- The key the code computes per tag: lower-case, underscore to
hyphen, spaces removed. -/
theorem code_key_eq (tag : String) :
    pyReplace (pyReplace (pyLower tag) "_" "-") " " ""
      = String.mk ((((pyLower tag).data.map
          (fun c => if c = '_' then '-' else c)).filter (fun c => !(c = ' ')))) := by
  show String.mk (replaceFuel ' ' [] []
      (String.mk (replaceFuel '_' [] ['-']
        (pyLower tag).data.length (pyLower tag).data)).data.length
      (String.mk (replaceFuel '_' [] ['-']
        (pyLower tag).data.length (pyLower tag).data)).data) = _
  rw [replaceFuel_single_map '_' '-' _ _ (Nat.le_refl _)]
  rw [replaceFuel_single_filter ' ' _ _ (by simp)]

/-- Tag normalisation as the amended claim words it: lower-case, map
each underscore to a hyphen, and remove spaces. -/
def amendedNormTag (tag : String) : String :=
  String.mk (((pyLower tag).data.map (fun c => if c = '_' then '-' else c)).filter
    (fun c => !(c = ' ')))

/-- Surface-finish detection as the amended claim describes it: the
first tag (in tag order) whose normalised form contains some keyword
decides the result, the display name coming from the first matching
keyword in map order. -/
def amendedSurfaceFinish (tags : List String) : Option String :=
  match tags.find? (fun tag =>
      SURFACE_MAP.any (fun p => subOccurs p.1.data (amendedNormTag tag).data)) with
  | none => none
  | some tag =>
    (SURFACE_MAP.find? (fun p =>
      subOccurs p.1.data (amendedNormTag tag).data)).map (fun p => p.2)

theorem findSome_if_eq_find_map {α β : Type} (q : α → Bool) (f : α → β)
    (l : List α) :
    (l.findSome? (fun a => if q a then some (f a) else none))
      = (l.find? q).map f := by
  induction l with
  | nil => rfl
  | cons a rest ih =>
    by_cases h : q a <;> simp [List.findSome?_cons, List.find?_cons, h, ih]

theorem detect_surface_inner (tag : String) :
    (SURFACE_MAP.findSome? (fun p =>
      if subOccurs p.1.data
          (pyReplace (pyReplace (pyLower tag) "_" "-") " " "").data
      then some p.2 else none))
    = (SURFACE_MAP.find? (fun p =>
        subOccurs p.1.data (amendedNormTag tag).data)).map (fun p => p.2) := by
  rw [show (pyReplace (pyReplace (pyLower tag) "_" "-") " " "")
      = amendedNormTag tag from code_key_eq tag]
  exact findSome_if_eq_find_map _ _ _

/-- C9 amended.  `detect_surface_finish` agrees everywhere with the
amended description (underscore mapped to hyphen rather than removed). -/
theorem claim_C9_amended (tags : List String) :
    detect_surface_finish tags = amendedSurfaceFinish tags := by
  induction tags with
  | nil => rfl
  | cons tag rest ih =>
    simp only [detect_surface_finish, List.findSome?_cons]
    rw [detect_surface_inner tag]
    have hrest : List.findSome? (fun tag =>
        SURFACE_MAP.findSome? (fun p =>
          if subOccurs p.1.data
              (pyReplace (pyReplace (pyLower tag) "_" "-") " " "").data
          then some p.2 else none)) rest = amendedSurfaceFinish rest := ih
    cases hf : SURFACE_MAP.find? (fun p =>
        subOccurs p.1.data (amendedNormTag tag).data) with
    | none =>
      have hq : ¬(SURFACE_MAP.any (fun p =>
          subOccurs p.1.data (amendedNormTag tag).data)) = true := by
        rw [List.any_eq_true]
        rintro ⟨x, hx, hpx⟩
        exact List.find?_eq_none.mp hf x hx hpx
      simp only [Option.map_none']
      rw [hrest]
      unfold amendedSurfaceFinish
      rw [@List.find?_cons_of_neg _
        (fun tag => SURFACE_MAP.any (fun p =>
          subOccurs p.1.data (amendedNormTag tag).data)) tag rest hq]
    | some p0 =>
      have hq : (SURFACE_MAP.any (fun p =>
          subOccurs p.1.data (amendedNormTag tag).data)) = true := by
        rw [List.any_eq_true]
        refine ⟨p0, List.mem_of_find?_eq_some hf, ?_⟩
        have hsome := List.find?_some hf
        simpa using hsome
      conv_rhs => rw [amendedSurfaceFinish]
      rw [@List.find?_cons_of_pos _
        (fun tag => SURFACE_MAP.any (fun p =>
          subOccurs p.1.data (amendedNormTag tag).data)) tag rest hq]
      simp [hf]

theorem isPrefixOf_self {α : Type} [BEq α] [LawfulBEq α] (l : List α) :
    l.isPrefixOf l = true := by
  induction l with
  | nil => rfl
  | cons a l ih => simp [List.isPrefixOf, ih]

theorem pyReplace_self (t : String) : pyReplace t t "" = "" := by
  unfold pyReplace
  cases ht : t.data with
  | nil => simp [ht]
  | cons p ps =>
    show String.mk (replaceFuel p ps [] (ps.length + 1) (p :: ps)) = ""
    rw [show replaceFuel p ps [] (ps.length + 1) (p :: ps)
        = [] ++ replaceFuel p ps [] ps.length (ps.drop ps.length) from by
      rw [replaceFuel, if_pos (isPrefixOf_self (p :: ps))]]
    rw [List.drop_length]
    cases ps <;> rfl

/-- A title in which the extracted series substring occurs twice. -/
def repeatedSeriesListing : Listing :=
  { title := some "AB 3x3 AB" }

/-- C7 counterexample: the series extracted from "AB 3x3 AB" is "AB";
the code removes every occurrence (model "3x3"), while removing it
exactly once would leave "3x3 AB". -/
theorem claim_C7_counterexample :
    extract_series_name "AB 3x3 AB" = "AB"
      ∧ (base_row repeatedSeriesListing).model = "3x3"
      ∧ pyStrip (pyReplaceFirst "AB 3x3 AB" "AB" "") = "3x3 AB"
      ∧ ("3x3" : String) ≠ "3x3 AB" := by decide

/-- A title entirely consumed by the extracted series. -/
def wholeSeriesListing : Listing :=
  { title := some "GAN" }

/-- C7 amended.  The Base row's model equals the original title with
EVERY occurrence of the extracted series substring removed, trimmed;
when the extracted series is the whole title the model is the empty
string (and the computation is total, so nothing can crash). -/
theorem claim_C7_model (prod : Listing) :
    (normalize_product prod).head?.map (fun r => r.model)
        = some (pyStrip (pyReplace (prod.title.getD "")
            (extract_series_name (prod.title.getD "")) ""))
      ∧ (extract_series_name (prod.title.getD "") = prod.title.getD ""
          → (base_row prod).model = "") := by
  constructor
  · rw [normalize_product_head]
    rfl
  · intro h
    show pyStrip (pyReplace (prod.title.getD "")
      (extract_series_name (prod.title.getD "")) "") = ""
    rw [h, pyReplace_self]
    rfl

theorem claim_C7_model_witness :
    (base_row wholeSeriesListing).model = "" :=
  (claim_C7_model wholeSeriesListing).2 (by decide)

/-- The millimetre pattern as the claim words it — one OR two digits
with an optional single decimal — attempted at the current position
(greedy: two digits preferred, with backtracking to one). -/
def mmMatchClaimAt : List Char → Option Nat
  | [] => none
  | a :: rest =>
    if a.isDigit then
      (match rest with
       | b :: rest2 =>
         if b.isDigit then mmAfterDigits (10 * digitVal a + digitVal b) rest2
         else none
       | [] => none).orElse
        (fun _ => mmAfterDigits (digitVal a) rest)
    else none

/-- Leftmost search for the claim's 1–2-digit millimetre pattern. -/
def mmSearchClaim : List Char → Option Nat
  | [] => none
  | c :: rest =>
    match mmMatchClaimAt (c :: rest) with
    | some v => some v
    | none => mmSearchClaim rest

/-- A listing whose text contains a single-digit millimetre figure. -/
def nineMmListing : Listing :=
  { title := some "9mm cube" }

/-- C4 counterexample: the claim's 1–2-digit pattern captures 9.0 mm in
the text "9mm cube", but the compiled pattern requires exactly two
digits, so the code falls through to the 56.0 mm default. -/
theorem claim_C4_counterexample :
    mmSearchClaim (sizeText nineMmListing).data = some 90
      ∧ detect_size_mm nineMmListing = 560
      ∧ (560 : Nat) ≠ 90 := by decide

/-- Strategy 1 of the amended size claim: the two-digit millimetre
pattern over the assembled text. -/
def sizeStrategyMm (prod : Listing) : Option Nat :=
  mmSearch (sizeText prod).data

/-- Strategy 2 of the amended size claim: a single-digit `NxN` title
match whose key is present in the fixed size table. -/
def sizeStrategyNxN (prod : Listing) : Option Nat :=
  (nxnSearch none (prod.title.getD "").data).bind
    (fun p => DEFAULT_SIZE_MM.lookup (String.mk [p.1, 'x', p.2]))

/-- The amended size specification: the first applicable strategy wins,
with a 56.0 mm default. -/
def amendedSizeSpec (prod : Listing) : Nat :=
  ((sizeStrategyMm prod).orElse (fun _ => sizeStrategyNxN prod)).getD 560

/-- C4 amended.  `detect_size_mm` is the first-match-wins composition of
the (exactly-two-digit) millimetre strategy, the `NxN` table strategy
and the 56.0 mm default, and in particular always returns a value. -/
theorem claim_C4_size (prod : Listing) :
    detect_size_mm prod = amendedSizeSpec prod := by
  unfold detect_size_mm amendedSizeSpec sizeStrategyMm sizeStrategyNxN
  cases mmSearch (sizeText prod).data with
  | some v => rfl
  | none =>
    cases nxnSearch none (prod.title.getD "").data with
    | none => rfl
    | some p =>
      cases hl : DEFAULT_SIZE_MM.lookup (String.mk [p.1, 'x', p.2]) with
      | none => simp [hl]
      | some v => simp [hl]

/-- The one unguarded-looking Python subscript in the expander,
`(prod.get("images") or [{}])[0]`, as a fallible operation: indexing an
empty list raises. -/
def headImageE : List Image → Except String Image
  | [] => Except.error "IndexError: list index out of range"
  | img :: _ => Except.ok img

/-- The Python subscript `v["featured_image"]`, as a fallible
operation: a missing key raises. -/
def featuredImageE : Option Image → Except String Image
  | none => Except.error "KeyError: featured_image"
  | some img => Except.ok img

/-- `normalize_product`'s Base-row construction with its fallible
subscript made explicit in the `Except` monad.  `should_skip` and every
other extractor use only defaulted lookups (`dict.get` with a default),
so their direct translations are already total. -/
def base_rowE (prod : Listing) : Except String Row := do
  let tags := (prod.tags.getD []).map pyLower
  let title := prod.title.getD ""
  let series := extract_series_name title
  let imgs := prod.images.getD []
  let first ← headImageE (if imgs.isEmpty then [Image.mk none] else imgs)
  Except.ok
    { series := series
      model := pyStrip (pyReplace title series "")
      slug := slugify (series ++ pyReplace title series "")
      brand := prod.vendor.getD ""
      type := prod.product_type.getD ""
      magnetic := tags.contains "magnetic"
      maglev := tags.any (fun t => subOccurs "maglev".data t.data)
      smart := tags.contains "bluetooth"
      wca_legal := !(tags.any (fun t => ILLEGAL_TAGS.contains (pyLower t)))
        && !(ILLEGAL_CUBE_TYPES.contains (prod.product_type.getD ""))
      image_url := some (String.mk (takeBeforeSub ['?'] (first.src.getD "").data))
      discontinued := !((prod.variants.getD []).any (fun v => v.available.getD true))
      surface_finish := detect_surface_finish tags
      stickered := is_stickered prod
      release_date := String.mk ((prod.published_at.getD "").data.take 10)
      size := detect_size_mm prod
      weight := 0
      rating := 0
      notes := ""
      status := "Pending"
      submitted_by := "CubeIndex"
      version_type := "Base"
      version_name := ""
      related_to := none }

/-- The Trim-row construction with its guarded featured-image subscript
made explicit. -/
def mk_trimE (base : Row) (v : Variant) : Except String Row := do
  let image_url ←
    if v.featured_image ≠ none then do
      let img ← featuredImageE v.featured_image
      Except.ok img.src
    else Except.ok base.image_url
  Except.ok
    { base with
      weight := v.grams.getD 0
      related_to := some base.slug
      slug := slugify (base.slug ++ " " ++ v.title.getD "")
      version_type := "Trim"
      version_name := v.title.getD ""
      image_url := image_url }

/-- The Trim-row loop in the `Except` monad. -/
def mk_trimsE (base : Row) : List Variant → Except String (List Row)
  | [] => Except.ok []
  | v :: vs => do
    let row ← mk_trimE base v
    let rows ← mk_trimsE base vs
    Except.ok (row :: rows)

/-- `normalize_product` with every fallible operation explicit. -/
def normalize_productE (prod : Listing) : Except String (List Row) := do
  let base ← base_rowE prod
  let variants := prod.variants.getD []
  if variants.isEmpty then Except.ok [base]
  else do
    let trims ← mk_trimsE base variants
    Except.ok (base :: trims)

theorem base_rowE_ok (prod : Listing) :
    base_rowE prod = Except.ok (base_row prod) := by
  obtain ⟨t, ve, pt, tg, bh, im, va, pu⟩ := prod
  cases im with
  | none => rfl
  | some l =>
    cases l with
    | nil => rfl
    | cons i is => rfl

theorem mk_trimE_ok (base : Row) (v : Variant) :
    mk_trimE base v = Except.ok (mk_trim base v) := by
  obtain ⟨vt, vg, va, vf⟩ := v
  cases vf with
  | none => rfl
  | some img => rfl

theorem mk_trimsE_ok (base : Row) (vs : List Variant) :
    mk_trimsE base vs = Except.ok (vs.map (mk_trim base)) := by
  induction vs with
  | nil => rfl
  | cons v vs ih =>
    show (do
      let row ← mk_trimE base v
      let rows ← mk_trimsE base vs
      Except.ok (row :: rows)) = _
    rw [mk_trimE_ok, ih]
    rfl

/-- The listing with every expected field absent. -/
def emptyListing : Listing := {}

/-- C6.  With every fallible Python operation made explicit in the
`Except` monad, `normalize_product` never errors: on every listing —
whatever subset of expected fields is absent — it succeeds, returning
exactly the pure translation's rows; and on the listing with every
field absent it produces the single safe-default Base row (empty
strings, empty-derived flags, the 56.0 mm size default).  `should_skip`
performs only defaulted lookups, so its translation is total as well;
with every field absent it sees an empty type string and skips
nothing. -/
theorem claim_C6_safe_defaults :
    (∀ prod : Listing,
      normalize_productE prod = Except.ok (normalize_product prod))
      ∧ should_skip emptyListing = false
      ∧ normalize_product emptyListing =
          [{ series := "", model := "", slug := "", brand := "", type := "",
             magnetic := false, maglev := false, smart := false,
             wca_legal := true, image_url := some "", discontinued := true,
             surface_finish := none, stickered := false, release_date := "",
             size := 560, weight := 0, rating := 0, notes := "",
             status := "Pending", submitted_by := "CubeIndex",
             version_type := "Base", version_name := "", related_to := none }] := by
  constructor
  · intro prod
    unfold normalize_productE normalize_product
    rw [base_rowE_ok]
    by_cases h : (prod.variants.getD []).isEmpty
    · simp only [h, if_true]
      rfl
    · simp only [h, if_false]
      show (do
        let trims ← mk_trimsE (base_row prod) (prod.variants.getD [])
        Except.ok (base_row prod :: trims)) = _
      rw [mk_trimsE_ok]
      rfl
  · exact ⟨by decide, by decide⟩
